import Mathlib

/-!
Shallow embedding of the PulsarTrack multisig-treasury contract
(src/contracts/multisig-treasury/src/lib.rs) and proofs of the spec's
claims about it.

Modelling conventions:
* Soroban `Address` values are modelled as natural numbers.
* `u32`/`u64` counters and timestamps are modelled as `Nat`; `i128`
  amounts as `Int`.  In every reachable state the counters stay far
  below the machine bounds, so no wrap-around is observable.
* The durable store is a record `TreasuryState`; `Instance`-storage keys
  that the code reads with `unwrap` are `Option`-valued, and an `unwrap`
  of a missing key surfaces as the `StorageMissing` error.
* Each contract entry point becomes a function
  `TreasuryState → … → TreasuryState × Option Err`: the returned state
  reflects every `set` the code performed before returning or failing,
  and `none` means success.  `require_auth` aborts before any storage
  access and is therefore elided.
* The external token `transfer` invoked by `execute_transaction` is an
  oracle parameter `transferOk`; the result additionally records
  whether the transfer capability was invoked at all.
-/

/-- Soroban addresses, modelled as natural numbers. -/
abbrev Address := Nat

/-- Status of a treasury transaction (enum `TxStatus` in the source). -/
inductive TxStatus
  | Pending
  | Approved
  | Executed
  | Rejected
  | Expired
  deriving DecidableEq

/-- A treasury transaction record (struct `TreasuryTx` in the source). -/
structure TreasuryTx where
  tx_id : Nat
  proposer : Address
  recipient : Address
  token : Address
  amount : Int
  description : String
  status : TxStatus
  approvals : Nat
  rejections : Nat
  required_approvals : Nat
  created_at : Nat
  expires_at : Nat
  executed_at : Option Nat
  deriving DecidableEq

/-- Error outcomes of the contract's entry points: one constructor per
`panic!` site of the source (plus `StorageMissing` for an `unwrap` of an
absent storage key, and `TransferFailed` for a failing token transfer). -/
inductive Err
  | AlreadyInitialized
  | InvalidQuorum
  | NotSigner
  | InvalidAmount
  | NotFound
  | AlreadyVoted
  | InvalidStatus
  | Expired
  | TransferFailed
  | StorageMissing
  deriving DecidableEq

/-- The durable storage of the contract, one field per `DataKey` variant:
`Admin`, `Signers`, `RequiredSigners`, `TxCounter`, `Tx(id)` and the
`TxApproval(id, signer)` vote markers (a list of pairs; presence in the
list is presence of the key).  `TxCounter` is only ever read with
`unwrap_or(0)`, so it is a plain `Nat` defaulting to `0`. -/
structure TreasuryState where
  admin : Option Address
  signers : Option (List Address)
  requiredSigners : Option Nat
  txCounter : Nat
  txs : Nat → Option TreasuryTx
  votes : List (Nat × Address)

/-- The storage before any call: no key is set. -/
def emptyState : TreasuryState :=
  { admin := none
    signers := none
    requiredSigners := none
    txCounter := 0
    txs := fun _ => none
    votes := [] }

/-- `env.storage().persistent().set(&DataKey::Tx(i), &tx)`. -/
def setTx (txs : Nat → Option TreasuryTx) (i : Nat) (tx : TreasuryTx) :
    Nat → Option TreasuryTx :=
  fun j => if j = i then some tx else txs j

/-- `initialize(env, admin, initial_signers, required)`. -/
def init_treasury (s : TreasuryState) (admin : Address)
    (initial_signers : List Address) (required : Nat) :
    TreasuryState × Option Err :=
  if s.admin.isSome then
    (s, some .AlreadyInitialized)
  else if required = 0 ∨ initial_signers.length < required then
    (s, some .InvalidQuorum)
  else
    ({ s with
        admin := some admin
        signers := some initial_signers
        requiredSigners := some required
        txCounter := 0 }, none)

/-- `propose_transaction(env, proposer, recipient, token, amount,
description, expires_in)`; `now` is `env.ledger().timestamp()`.  On
success the allocated id is the returned state's `txCounter`. -/
def propose_transaction (s : TreasuryState) (now : Nat) (proposer : Address)
    (recipient : Address) (token : Address) (amount : Int)
    (description : String) (expires_in : Nat) :
    TreasuryState × Option Err :=
  match s.signers with
  | none => (s, some .StorageMissing)
  | some signers =>
    if proposer ∉ signers then
      (s, some .NotSigner)
    else if amount ≤ 0 then
      (s, some .InvalidAmount)
    else
      match s.requiredSigners with
      | none => (s, some .StorageMissing)
      | some required =>
        let tx_id := s.txCounter + 1
        let tx : TreasuryTx :=
          { tx_id := tx_id
            proposer := proposer
            recipient := recipient
            token := token
            amount := amount
            description := description
            status := .Pending
            approvals := 0
            rejections := 0
            required_approvals := required
            created_at := now
            expires_at := now + expires_in
            executed_at := none }
        ({ s with txs := setTx s.txs tx_id tx, txCounter := tx_id }, none)

/-- `approve_transaction(env, signer, tx_id)`; `now` is
`env.ledger().timestamp()`.  The lazy-expiry branch persists the
`Expired` status and then fails. -/
def approve_transaction (s : TreasuryState) (now : Nat) (signer : Address)
    (tx_id : Nat) : TreasuryState × Option Err :=
  match s.signers with
  | none => (s, some .StorageMissing)
  | some signers =>
    if signer ∉ signers then
      (s, some .NotSigner)
    else if (tx_id, signer) ∈ s.votes then
      (s, some .AlreadyVoted)
    else
      match s.txs tx_id with
      | none => (s, some .NotFound)
      | some tx =>
        if tx.status ≠ .Pending then
          (s, some .InvalidStatus)
        else if tx.expires_at < now then
          ({ s with txs := setTx s.txs tx_id { tx with status := .Expired } },
            some .Expired)
        else
          let tx1 := { tx with approvals := tx.approvals + 1 }
          let tx2 :=
            if tx1.required_approvals ≤ tx1.approvals then
              { tx1 with status := .Approved }
            else tx1
          ({ s with
              txs := setTx s.txs tx_id tx2
              votes := (tx_id, signer) :: s.votes }, none)

/-- `reject_transaction(env, signer, tx_id)`.  Note: no vote marker is
checked or written, and the quorum is re-read from
`DataKey::RequiredSigners`. -/
def reject_transaction (s : TreasuryState) (signer : Address) (tx_id : Nat) :
    TreasuryState × Option Err :=
  match s.signers with
  | none => (s, some .StorageMissing)
  | some signers =>
    if signer ∉ signers then
      (s, some .NotSigner)
    else
      match s.txs tx_id with
      | none => (s, some .NotFound)
      | some tx =>
        if tx.status ≠ .Pending then
          (s, some .InvalidStatus)
        else
          match s.requiredSigners with
          | none => (s, some .StorageMissing)
          | some required =>
            let rejections := tx.rejections + 1
            let max_possible_approvals := signers.length - rejections
            let tx1 :=
              { tx with
                  rejections := rejections
                  status :=
                    if max_possible_approvals < required then .Rejected
                    else tx.status }
            ({ s with txs := setTx s.txs tx_id tx1 }, none)

/-- `execute_transaction(env, caller, tx_id)`; `now` is
`env.ledger().timestamp()` and `transferOk` is the outcome of the
external `token::Client::transfer` call.  The third component records
whether the transfer capability was invoked. -/
def execute_transaction (s : TreasuryState) (now : Nat) (transferOk : Bool)
    (caller : Address) (tx_id : Nat) :
    TreasuryState × Option Err × Bool :=
  match s.signers with
  | none => (s, some .StorageMissing, false)
  | some signers =>
    if caller ∉ signers then
      (s, some .NotSigner, false)
    else
      match s.txs tx_id with
      | none => (s, some .NotFound, false)
      | some tx =>
        if tx.status ≠ .Approved then
          (s, some .InvalidStatus, false)
        else if ¬ transferOk then
          (s, some .TransferFailed, true)
        else
          ({ s with
              txs := setTx s.txs tx_id
                { tx with status := .Executed, executed_at := some now } },
            none, true)

/-- `get_transaction(env, tx_id)`. -/
def get_transaction (s : TreasuryState) (tx_id : Nat) : Option TreasuryTx :=
  s.txs tx_id

/-- `get_signers(env)` (the `unwrap` of a missing key surfaces as `none`). -/
def get_signers (s : TreasuryState) : Option (List Address) :=
  s.signers

/-- One invocation of a mutating entry point, quantified over all caller
inputs, ledger timestamps and transfer outcomes.  The post-state is the
state the call left behind, whether it succeeded or failed. -/
inductive TreasuryStep : TreasuryState → TreasuryState → Prop
  | init (s : TreasuryState) (admin : Address) (sg : List Address) (r : Nat) :
      TreasuryStep s (init_treasury s admin sg r).1
  | propose (s : TreasuryState) (now : Nat) (proposer recipient token : Address)
      (amount : Int) (description : String) (expires_in : Nat) :
      TreasuryStep s
        (propose_transaction s now proposer recipient token amount description
          expires_in).1
  | approve (s : TreasuryState) (now : Nat) (signer : Address) (tx_id : Nat) :
      TreasuryStep s (approve_transaction s now signer tx_id).1
  | reject (s : TreasuryState) (signer : Address) (tx_id : Nat) :
      TreasuryStep s (reject_transaction s signer tx_id).1
  | execute (s : TreasuryState) (now : Nat) (transferOk : Bool)
      (caller : Address) (tx_id : Nat) :
      TreasuryStep s (execute_transaction s now transferOk caller tx_id).1

/-- States reachable from the empty storage by any sequence of calls. -/
inductive TreasuryReachable : TreasuryState → Prop
  | empty : TreasuryReachable emptyState
  | step {s s' : TreasuryState} :
      TreasuryReachable s → TreasuryStep s s' → TreasuryReachable s'

/-- Terminal statuses: the record is immutable once it carries one. -/
def isTerminal : TxStatus → Bool
  | .Executed => true
  | .Rejected => true
  | .Expired => true
  | _ => false

/-- The state machine's allowed evolutions (reflexive):
`Pending → {Approved, Rejected, Expired}` and `Approved → Executed`. -/
def statusAdv : TxStatus → TxStatus → Bool
  | .Pending, .Pending => true
  | .Pending, .Approved => true
  | .Pending, .Rejected => true
  | .Pending, .Expired => true
  | .Approved, .Approved => true
  | .Approved, .Executed => true
  | .Executed, .Executed => true
  | .Rejected, .Rejected => true
  | .Expired, .Expired => true
  | _, _ => false

/-! ### Concrete scenarios (used as witnesses) -/

/-- Roster `[0, 1, 2]`, quorum 2, admin 9. -/
def sA1 : TreasuryState := (init_treasury emptyState 9 [0, 1, 2] 2).1

/-- Signer 0 proposes transaction 1 at time 100 with lifetime 1000. -/
def sA2 : TreasuryState := (propose_transaction sA1 100 0 7 8 50 "grant" 1000).1

/-- Signer 0 approves transaction 1. -/
def sA3 : TreasuryState := (approve_transaction sA2 110 0 1).1

/-- Signer 1 approves transaction 1, reaching the quorum. -/
def sA4 : TreasuryState := (approve_transaction sA3 120 1 1).1

/-- Signer 2 executes transaction 1. -/
def sA5 : TreasuryState := (execute_transaction sA4 130 true 2 1).1

/-- The stored record of transaction 1 in `sA2`. -/
def txA2 : TreasuryTx :=
  { tx_id := 1
    proposer := 0
    recipient := 7
    token := 8
    amount := 50
    description := "grant"
    status := .Pending
    approvals := 0
    rejections := 0
    required_approvals := 2
    created_at := 100
    expires_at := 1100
    executed_at := none }

/-- The stored record of transaction 1 in `sA4`. -/
def txA4 : TreasuryTx :=
  { txA2 with status := .Approved, approvals := 2 }

/-- Roster `[0, 1, 2, 3, 4]`, quorum 3, admin 9. -/
def sB1 : TreasuryState := (init_treasury emptyState 9 [0, 1, 2, 3, 4] 3).1

/-- Signer 0 proposes transaction 1 at time 100 with lifetime 1000. -/
def sB2 : TreasuryState := (propose_transaction sB1 100 0 7 8 50 "pay" 1000).1

/-- Signer 1 rejects transaction 1. -/
def sB3 : TreasuryState := (reject_transaction sB2 1 1).1

/-- The stored record of transaction 1 in `sB2`. -/
def txB2 : TreasuryTx :=
  { txA2 with description := "pay", required_approvals := 3 }

/-- The inductive invariant of the contract's storage, proved to hold in
every reachable state.  `sg` and `req` below always denote the stored
roster and quorum. -/
structure TreasuryInv (s : TreasuryState) : Prop where
  uninitSigners : s.admin = none → s.signers = none
  uninitTxs : s.admin = none → ∀ i, s.txs i = none
  uninitVotes : s.admin = none → s.votes = []
  cfg : ∀ sg req, s.signers = some sg → s.requiredSigners = some req →
      1 ≤ req ∧ req ≤ sg.length
  txCfg : ∀ i tx, s.txs i = some tx →
      s.requiredSigners = some tx.required_approvals
  idLe : ∀ i tx, s.txs i = some tx → i ≤ s.txCounter
  votesNodup : s.votes.Nodup
  votesId : ∀ p ∈ s.votes, p.1 ≤ s.txCounter
  votesCount : ∀ i tx, s.txs i = some tx →
      tx.approvals = (s.votes.filter (fun p => p.1 == i)).length
  apLe : ∀ i tx, s.txs i = some tx → tx.approvals ≤ tx.required_approvals
  pendingLt : ∀ i tx, s.txs i = some tx → tx.status = .Pending →
      tx.approvals < tx.required_approvals
  statusIff : ∀ i tx, s.txs i = some tx →
      ((tx.status = .Approved ∨ tx.status = .Executed) ↔
        tx.required_approvals ≤ tx.approvals)
  pendingRej : ∀ i tx sg, s.txs i = some tx → s.signers = some sg →
      tx.status = .Pending → tx.required_approvals + tx.rejections ≤ sg.length
  totalLe : ∀ i tx sg, s.txs i = some tx → s.signers = some sg →
      tx.approvals + tx.rejections ≤ sg.length
  rejectedUnr : ∀ i tx sg, s.txs i = some tx → s.signers = some sg →
      tx.status = .Rejected → sg.length < tx.required_approvals + tx.rejections
  executedAt : ∀ i tx, s.txs i = some tx →
      (tx.executed_at.isSome ↔ tx.status = .Executed)

/-! ### Reachable-state invariants -/

theorem setTx_self (txs : Nat → Option TreasuryTx) (i : Nat) (tx : TreasuryTx) :
    setTx txs i tx i = some tx := by
  simp [setTx]

theorem setTx_other (txs : Nat → Option TreasuryTx) (i j : Nat)
    (tx : TreasuryTx) (h : j ≠ i) : setTx txs i tx j = txs j := by
  simp [setTx, h]

theorem inv_empty : TreasuryInv emptyState := by
  constructor <;> simp [emptyState]

/-- A successful `initialize` establishes the invariant. -/
theorem inv_init_set (s : TreasuryState) (a : Address) (sg : List Address)
    (r : Nat) (h : TreasuryInv s) (hA : s.admin = none)
    (hr : ¬(r = 0 ∨ sg.length < r)) :
    TreasuryInv { s with
        admin := some a
        signers := some sg
        requiredSigners := some r
        txCounter := 0 } := by
  have htxs := h.uninitTxs hA
  have hv := h.uninitVotes hA
  refine ⟨?_, ?_, ?_, ?_, ?_, ?_, ?_, ?_, ?_, ?_, ?_, ?_, ?_, ?_, ?_, ?_⟩ <;>
    simp_all
  omega

/-- Reading back a store after `setTx`: either the written slot or an
untouched one. -/
theorem setTx_cases {txs : Nat → Option TreasuryTx} {k i : Nat}
    {t tx : TreasuryTx} (hti : setTx txs k t i = some tx) :
    (i = k ∧ tx = t) ∨ (i ≠ k ∧ txs i = some tx) := by
  by_cases hij : i = k
  · subst hij
    rw [setTx_self] at hti
    injection hti with hti
    exact Or.inl ⟨rfl, hti.symm⟩
  · rw [setTx_other _ _ _ _ hij] at hti
    exact Or.inr ⟨hij, hti⟩

/-- A successful `propose_transaction` preserves the invariant. -/
theorem inv_propose_set (s : TreasuryState) (now : Nat)
    (proposer recipient token : Address) (amount : Int) (d : String)
    (e : Nat) (sg : List Address) (required : Nat) (h : TreasuryInv s)
    (hsg : s.signers = some sg) (hreq : s.requiredSigners = some required) :
    TreasuryInv { s with
        txs := setTx s.txs (s.txCounter + 1)
          { tx_id := s.txCounter + 1
            proposer := proposer
            recipient := recipient
            token := token
            amount := amount
            description := d
            status := .Pending
            approvals := 0
            rejections := 0
            required_approvals := required
            created_at := now
            expires_at := now + e
            executed_at := none }
        txCounter := s.txCounter + 1 } := by
  have hA : s.admin ≠ none := by
    intro hA0
    rw [h.uninitSigners hA0] at hsg
    exact Option.noConfusion hsg
  have hq := h.cfg sg required hsg hreq
  constructor
  case uninitSigners => intro hA0; exact absurd hA0 hA
  case uninitTxs => intro hA0; exact absurd hA0 hA
  case uninitVotes => intro hA0; exact absurd hA0 hA
  case cfg => exact h.cfg
  case txCfg =>
    intro i tx hti
    dsimp only at hti ⊢
    rcases setTx_cases hti with ⟨rfl, rfl⟩ | ⟨hij, hti'⟩
    · exact hreq
    · exact h.txCfg i tx hti'
  case idLe =>
    intro i tx hti
    dsimp only at hti ⊢
    rcases setTx_cases hti with ⟨rfl, rfl⟩ | ⟨hij, hti'⟩
    · exact le_refl _
    · exact Nat.le_succ_of_le (h.idLe i tx hti')
  case votesNodup => exact h.votesNodup
  case votesId =>
    intro p hp
    dsimp only at hp ⊢
    exact Nat.le_succ_of_le (h.votesId p hp)
  case votesCount =>
    intro i tx hti
    dsimp only at hti ⊢
    rcases setTx_cases hti with ⟨rfl, rfl⟩ | ⟨hij, hti'⟩
    · have hnil : s.votes.filter (fun p => p.1 == s.txCounter + 1) = [] := by
        rw [List.filter_eq_nil_iff]
        intro p hp
        have hle := h.votesId p hp
        simp only [beq_iff_eq]
        omega
      rw [hnil]
      rfl
    · exact h.votesCount i tx hti'
  case apLe =>
    intro i tx hti
    dsimp only at hti ⊢
    rcases setTx_cases hti with ⟨rfl, rfl⟩ | ⟨hij, hti'⟩
    · exact Nat.zero_le _
    · exact h.apLe i tx hti'
  case pendingLt =>
    intro i tx hti
    dsimp only at hti ⊢
    rcases setTx_cases hti with ⟨rfl, rfl⟩ | ⟨hij, hti'⟩
    · intro _; exact hq.1
    · exact h.pendingLt i tx hti'
  case statusIff =>
    intro i tx hti
    dsimp only at hti ⊢
    rcases setTx_cases hti with ⟨rfl, rfl⟩ | ⟨hij, hti'⟩
    · constructor
      · rintro (h0 | h0) <;> exact TxStatus.noConfusion h0
      · intro h0
        have h1 := hq.1
        dsimp only at h0
        omega
    · exact h.statusIff i tx hti'
  case pendingRej =>
    intro i tx sg' hti hsg'
    dsimp only at hti hsg' ⊢
    rcases setTx_cases hti with ⟨rfl, rfl⟩ | ⟨hij, hti'⟩
    · rw [hsg] at hsg'
      injection hsg' with hsg'
      subst hsg'
      intro _
      have h2 := hq.2
      dsimp only
      omega
    · exact h.pendingRej i tx sg' hti' hsg'
  case totalLe =>
    intro i tx sg' hti hsg'
    dsimp only at hti hsg' ⊢
    rcases setTx_cases hti with ⟨rfl, rfl⟩ | ⟨hij, hti'⟩
    · rw [hsg] at hsg'
      injection hsg' with hsg'
      subst hsg'
      exact Nat.zero_le _
    · exact h.totalLe i tx sg' hti' hsg'
  case rejectedUnr =>
    intro i tx sg' hti hsg' hst
    dsimp only at hti hsg' hst ⊢
    rcases setTx_cases hti with ⟨rfl, rfl⟩ | ⟨hij, hti'⟩
    · exact TxStatus.noConfusion hst
    · exact h.rejectedUnr i tx sg' hti' hsg' hst
  case executedAt =>
    intro i tx hti
    dsimp only at hti ⊢
    rcases setTx_cases hti with ⟨rfl, rfl⟩ | ⟨hij, hti'⟩
    · simp
    · exact h.executedAt i tx hti'

/-- The lazy-expiry flip inside `approve_transaction` preserves the
invariant. -/
theorem inv_expire_set (s : TreasuryState) (tx_id : Nat) (tx : TreasuryTx)
    (h : TreasuryInv s) (htx : s.txs tx_id = some tx)
    (hp : tx.status = .Pending) :
    TreasuryInv { s with
        txs := setTx s.txs tx_id { tx with status := .Expired } } := by
  have hA : s.admin ≠ none := by
    intro hA0
    rw [h.uninitTxs hA0 tx_id] at htx
    exact Option.noConfusion htx
  have hlt := h.pendingLt tx_id tx htx hp
  constructor
  case uninitSigners => intro hA0; exact absurd hA0 hA
  case uninitTxs => intro hA0; exact absurd hA0 hA
  case uninitVotes => intro hA0; exact absurd hA0 hA
  case cfg => exact h.cfg
  case txCfg =>
    intro i tx' hti
    dsimp only at hti ⊢
    rcases setTx_cases hti with ⟨rfl, rfl⟩ | ⟨hij, hti'⟩
    · exact h.txCfg i tx htx
    · exact h.txCfg i tx' hti'
  case idLe =>
    intro i tx' hti
    dsimp only at hti ⊢
    rcases setTx_cases hti with ⟨rfl, rfl⟩ | ⟨hij, hti'⟩
    · exact h.idLe i tx htx
    · exact h.idLe i tx' hti'
  case votesNodup => exact h.votesNodup
  case votesId => exact h.votesId
  case votesCount =>
    intro i tx' hti
    dsimp only at hti ⊢
    rcases setTx_cases hti with ⟨rfl, rfl⟩ | ⟨hij, hti'⟩
    · exact h.votesCount i tx htx
    · exact h.votesCount i tx' hti'
  case apLe =>
    intro i tx' hti
    dsimp only at hti ⊢
    rcases setTx_cases hti with ⟨rfl, rfl⟩ | ⟨hij, hti'⟩
    · exact h.apLe i tx htx
    · exact h.apLe i tx' hti'
  case pendingLt =>
    intro i tx' hti
    dsimp only at hti ⊢
    rcases setTx_cases hti with ⟨rfl, rfl⟩ | ⟨hij, hti'⟩
    · intro hst; exact TxStatus.noConfusion hst
    · exact h.pendingLt i tx' hti'
  case statusIff =>
    intro i tx' hti
    dsimp only at hti ⊢
    rcases setTx_cases hti with ⟨rfl, rfl⟩ | ⟨hij, hti'⟩
    · constructor
      · rintro (h0 | h0) <;> exact TxStatus.noConfusion h0
      · intro h0
        dsimp only at h0
        exact absurd h0 (by omega)
    · exact h.statusIff i tx' hti'
  case pendingRej =>
    intro i tx' sg' hti hsg'
    dsimp only at hti hsg' ⊢
    rcases setTx_cases hti with ⟨rfl, rfl⟩ | ⟨hij, hti'⟩
    · intro hst; exact TxStatus.noConfusion hst
    · exact h.pendingRej i tx' sg' hti' hsg'
  case totalLe =>
    intro i tx' sg' hti hsg'
    dsimp only at hti hsg' ⊢
    rcases setTx_cases hti with ⟨rfl, rfl⟩ | ⟨hij, hti'⟩
    · exact h.totalLe i tx sg' htx hsg'
    · exact h.totalLe i tx' sg' hti' hsg'
  case rejectedUnr =>
    intro i tx' sg' hti hsg' hst
    dsimp only at hti hsg' hst ⊢
    rcases setTx_cases hti with ⟨rfl, rfl⟩ | ⟨hij, hti'⟩
    · exact TxStatus.noConfusion hst
    · exact h.rejectedUnr i tx' sg' hti' hsg' hst
  case executedAt =>
    intro i tx' hti
    dsimp only at hti ⊢
    rcases setTx_cases hti with ⟨rfl, rfl⟩ | ⟨hij, hti'⟩
    · have he := h.executedAt i tx htx
      rw [hp] at he
      constructor
      · intro h0; exact TxStatus.noConfusion (he.mp h0)
      · intro h0; exact TxStatus.noConfusion h0
    · exact h.executedAt i tx' hti'

/-- A counted approval vote preserves the invariant; `st` is the status
the vote leaves behind (`Approved` on reaching the quorum, otherwise
still `Pending`). -/
theorem inv_approve_set (s : TreasuryState) (signer : Address) (tx_id : Nat)
    (tx : TreasuryTx) (sg : List Address) (st : TxStatus) (h : TreasuryInv s)
    (_hsg : s.signers = some sg) (htx : s.txs tx_id = some tx)
    (hp : tx.status = .Pending) (hnv : (tx_id, signer) ∉ s.votes)
    (hIff : (st = TxStatus.Approved ∨ st = TxStatus.Executed) ↔
      tx.required_approvals ≤ tx.approvals + 1)
    (hPend : st = TxStatus.Pending → tx.approvals + 1 < tx.required_approvals)
    (hnR : st ≠ TxStatus.Rejected) (hnE : st ≠ TxStatus.Executed) :
    TreasuryInv { s with
        txs := setTx s.txs tx_id
          { tx with approvals := tx.approvals + 1, status := st }
        votes := (tx_id, signer) :: s.votes } := by
  have hA : s.admin ≠ none := by
    intro hA0
    rw [h.uninitTxs hA0 tx_id] at htx
    exact Option.noConfusion htx
  have hlt := h.pendingLt tx_id tx htx hp
  constructor
  case uninitSigners => intro hA0; exact absurd hA0 hA
  case uninitTxs => intro hA0; exact absurd hA0 hA
  case uninitVotes => intro hA0; exact absurd hA0 hA
  case cfg => exact h.cfg
  case txCfg =>
    intro i tx' hti
    dsimp only at hti ⊢
    rcases setTx_cases hti with ⟨rfl, rfl⟩ | ⟨hij, hti'⟩
    · exact h.txCfg i tx htx
    · exact h.txCfg i tx' hti'
  case idLe =>
    intro i tx' hti
    dsimp only at hti ⊢
    rcases setTx_cases hti with ⟨rfl, rfl⟩ | ⟨hij, hti'⟩
    · exact h.idLe i tx htx
    · exact h.idLe i tx' hti'
  case votesNodup =>
    dsimp only
    exact List.nodup_cons.mpr ⟨hnv, h.votesNodup⟩
  case votesId =>
    intro p hp'
    dsimp only at hp' ⊢
    rcases List.mem_cons.mp hp' with rfl | hp''
    · exact h.idLe tx_id tx htx
    · exact h.votesId p hp''
  case votesCount =>
    intro i tx' hti
    dsimp only at hti ⊢
    rcases setTx_cases hti with ⟨rfl, rfl⟩ | ⟨hij, hti'⟩
    · dsimp only
      rw [List.filter_cons_of_pos (by simp), h.votesCount i tx htx]
      rfl
    · rw [List.filter_cons_of_neg]
      · exact h.votesCount i tx' hti'
      · simp only [beq_iff_eq]
        exact Ne.symm hij
  case apLe =>
    intro i tx' hti
    dsimp only at hti ⊢
    rcases setTx_cases hti with ⟨rfl, rfl⟩ | ⟨hij, hti'⟩
    · exact hlt
    · exact h.apLe i tx' hti'
  case pendingLt =>
    intro i tx' hti
    dsimp only at hti ⊢
    rcases setTx_cases hti with ⟨rfl, rfl⟩ | ⟨hij, hti'⟩
    · exact hPend
    · exact h.pendingLt i tx' hti'
  case statusIff =>
    intro i tx' hti
    dsimp only at hti ⊢
    rcases setTx_cases hti with ⟨rfl, rfl⟩ | ⟨hij, hti'⟩
    · exact hIff
    · exact h.statusIff i tx' hti'
  case pendingRej =>
    intro i tx' sg' hti hsg'
    dsimp only at hti hsg' ⊢
    rcases setTx_cases hti with ⟨rfl, rfl⟩ | ⟨hij, hti'⟩
    · intro _; exact h.pendingRej i tx sg' htx hsg' hp
    · exact h.pendingRej i tx' sg' hti' hsg'
  case totalLe =>
    intro i tx' sg' hti hsg'
    dsimp only at hti hsg' ⊢
    rcases setTx_cases hti with ⟨rfl, rfl⟩ | ⟨hij, hti'⟩
    · have hpr := h.pendingRej i tx sg' htx hsg' hp
      dsimp only
      omega
    · exact h.totalLe i tx' sg' hti' hsg'
  case rejectedUnr =>
    intro i tx' sg' hti hsg' hst
    dsimp only at hti hsg' hst ⊢
    rcases setTx_cases hti with ⟨rfl, rfl⟩ | ⟨hij, hti'⟩
    · exact absurd hst hnR
    · exact h.rejectedUnr i tx' sg' hti' hsg' hst
  case executedAt =>
    intro i tx' hti
    dsimp only at hti ⊢
    rcases setTx_cases hti with ⟨rfl, rfl⟩ | ⟨hij, hti'⟩
    · have he := h.executedAt i tx htx
      rw [hp] at he
      constructor
      · intro h0; exact TxStatus.noConfusion (he.mp h0)
      · intro h0; exact absurd h0 hnE
    · exact h.executedAt i tx' hti'

/-- A counted rejection preserves the invariant; `st` is the status the
rejection leaves behind (`Rejected` once the quorum is unreachable,
otherwise still `Pending`). -/
theorem inv_reject_set (s : TreasuryState) (tx_id : Nat) (tx : TreasuryTx)
    (sg : List Address) (st : TxStatus) (h : TreasuryInv s)
    (hsg : s.signers = some sg) (htx : s.txs tx_id = some tx)
    (hp : tx.status = .Pending)
    (hnA : st ≠ TxStatus.Approved) (hnE : st ≠ TxStatus.Executed)
    (hPend : st = TxStatus.Pending →
      tx.required_approvals + (tx.rejections + 1) ≤ sg.length)
    (hRej : st = TxStatus.Rejected →
      sg.length < tx.required_approvals + (tx.rejections + 1)) :
    TreasuryInv { s with
        txs := setTx s.txs tx_id
          { tx with rejections := tx.rejections + 1, status := st } } := by
  have hA : s.admin ≠ none := by
    intro hA0
    rw [h.uninitTxs hA0 tx_id] at htx
    exact Option.noConfusion htx
  have hlt := h.pendingLt tx_id tx htx hp
  have hpr := h.pendingRej tx_id tx sg htx hsg hp
  constructor
  case uninitSigners => intro hA0; exact absurd hA0 hA
  case uninitTxs => intro hA0; exact absurd hA0 hA
  case uninitVotes => intro hA0; exact absurd hA0 hA
  case cfg => exact h.cfg
  case txCfg =>
    intro i tx' hti
    dsimp only at hti ⊢
    rcases setTx_cases hti with ⟨rfl, rfl⟩ | ⟨hij, hti'⟩
    · exact h.txCfg i tx htx
    · exact h.txCfg i tx' hti'
  case idLe =>
    intro i tx' hti
    dsimp only at hti ⊢
    rcases setTx_cases hti with ⟨rfl, rfl⟩ | ⟨hij, hti'⟩
    · exact h.idLe i tx htx
    · exact h.idLe i tx' hti'
  case votesNodup => exact h.votesNodup
  case votesId => exact h.votesId
  case votesCount =>
    intro i tx' hti
    dsimp only at hti ⊢
    rcases setTx_cases hti with ⟨rfl, rfl⟩ | ⟨hij, hti'⟩
    · exact h.votesCount i tx htx
    · exact h.votesCount i tx' hti'
  case apLe =>
    intro i tx' hti
    dsimp only at hti ⊢
    rcases setTx_cases hti with ⟨rfl, rfl⟩ | ⟨hij, hti'⟩
    · exact h.apLe i tx htx
    · exact h.apLe i tx' hti'
  case pendingLt =>
    intro i tx' hti
    dsimp only at hti ⊢
    rcases setTx_cases hti with ⟨rfl, rfl⟩ | ⟨hij, hti'⟩
    · intro _; exact hlt
    · exact h.pendingLt i tx' hti'
  case statusIff =>
    intro i tx' hti
    dsimp only at hti ⊢
    rcases setTx_cases hti with ⟨rfl, rfl⟩ | ⟨hij, hti'⟩
    · constructor
      · rintro (h0 | h0)
        · exact absurd h0 hnA
        · exact absurd h0 hnE
      · intro h0
        dsimp only at h0
        exact absurd h0 (by omega)
    · exact h.statusIff i tx' hti'
  case pendingRej =>
    intro i tx' sg' hti hsg'
    dsimp only at hti hsg' ⊢
    rcases setTx_cases hti with ⟨rfl, rfl⟩ | ⟨hij, hti'⟩
    · intro hst
      rw [hsg] at hsg'
      injection hsg' with hsg'
      subst hsg'
      exact hPend hst
    · exact h.pendingRej i tx' sg' hti' hsg'
  case totalLe =>
    intro i tx' sg' hti hsg'
    dsimp only at hti hsg' ⊢
    rcases setTx_cases hti with ⟨rfl, rfl⟩ | ⟨hij, hti'⟩
    · rw [hsg] at hsg'
      injection hsg' with hsg'
      subst hsg'
      dsimp only
      omega
    · exact h.totalLe i tx' sg' hti' hsg'
  case rejectedUnr =>
    intro i tx' sg' hti hsg' hst
    dsimp only at hti hsg' hst ⊢
    rcases setTx_cases hti with ⟨rfl, rfl⟩ | ⟨hij, hti'⟩
    · rw [hsg] at hsg'
      injection hsg' with hsg'
      subst hsg'
      exact hRej hst
    · exact h.rejectedUnr i tx' sg' hti' hsg' hst
  case executedAt =>
    intro i tx' hti
    dsimp only at hti ⊢
    rcases setTx_cases hti with ⟨rfl, rfl⟩ | ⟨hij, hti'⟩
    · have he := h.executedAt i tx htx
      rw [hp] at he
      constructor
      · intro h0; exact TxStatus.noConfusion (he.mp h0)
      · intro h0; exact absurd h0 hnE
    · exact h.executedAt i tx' hti'

/-- A successful `execute_transaction` preserves the invariant. -/
theorem inv_execute_set (s : TreasuryState) (now : Nat) (tx_id : Nat)
    (tx : TreasuryTx) (h : TreasuryInv s) (htx : s.txs tx_id = some tx)
    (hap : tx.status = .Approved) :
    TreasuryInv { s with
        txs := setTx s.txs tx_id
          { tx with status := .Executed, executed_at := some now } } := by
  have hA : s.admin ≠ none := by
    intro hA0
    rw [h.uninitTxs hA0 tx_id] at htx
    exact Option.noConfusion htx
  have hge := (h.statusIff tx_id tx htx).mp (Or.inl hap)
  constructor
  case uninitSigners => intro hA0; exact absurd hA0 hA
  case uninitTxs => intro hA0; exact absurd hA0 hA
  case uninitVotes => intro hA0; exact absurd hA0 hA
  case cfg => exact h.cfg
  case txCfg =>
    intro i tx' hti
    dsimp only at hti ⊢
    rcases setTx_cases hti with ⟨rfl, rfl⟩ | ⟨hij, hti'⟩
    · exact h.txCfg i tx htx
    · exact h.txCfg i tx' hti'
  case idLe =>
    intro i tx' hti
    dsimp only at hti ⊢
    rcases setTx_cases hti with ⟨rfl, rfl⟩ | ⟨hij, hti'⟩
    · exact h.idLe i tx htx
    · exact h.idLe i tx' hti'
  case votesNodup => exact h.votesNodup
  case votesId => exact h.votesId
  case votesCount =>
    intro i tx' hti
    dsimp only at hti ⊢
    rcases setTx_cases hti with ⟨rfl, rfl⟩ | ⟨hij, hti'⟩
    · exact h.votesCount i tx htx
    · exact h.votesCount i tx' hti'
  case apLe =>
    intro i tx' hti
    dsimp only at hti ⊢
    rcases setTx_cases hti with ⟨rfl, rfl⟩ | ⟨hij, hti'⟩
    · exact h.apLe i tx htx
    · exact h.apLe i tx' hti'
  case pendingLt =>
    intro i tx' hti
    dsimp only at hti ⊢
    rcases setTx_cases hti with ⟨rfl, rfl⟩ | ⟨hij, hti'⟩
    · intro hst; exact TxStatus.noConfusion hst
    · exact h.pendingLt i tx' hti'
  case statusIff =>
    intro i tx' hti
    dsimp only at hti ⊢
    rcases setTx_cases hti with ⟨rfl, rfl⟩ | ⟨hij, hti'⟩
    · constructor
      · intro _; exact hge
      · intro _; exact Or.inr rfl
    · exact h.statusIff i tx' hti'
  case pendingRej =>
    intro i tx' sg' hti hsg'
    dsimp only at hti hsg' ⊢
    rcases setTx_cases hti with ⟨rfl, rfl⟩ | ⟨hij, hti'⟩
    · intro hst; exact TxStatus.noConfusion hst
    · exact h.pendingRej i tx' sg' hti' hsg'
  case totalLe =>
    intro i tx' sg' hti hsg'
    dsimp only at hti hsg' ⊢
    rcases setTx_cases hti with ⟨rfl, rfl⟩ | ⟨hij, hti'⟩
    · exact h.totalLe i tx sg' htx hsg'
    · exact h.totalLe i tx' sg' hti' hsg'
  case rejectedUnr =>
    intro i tx' sg' hti hsg' hst
    dsimp only at hti hsg' hst ⊢
    rcases setTx_cases hti with ⟨rfl, rfl⟩ | ⟨hij, hti'⟩
    · exact TxStatus.noConfusion hst
    · exact h.rejectedUnr i tx' sg' hti' hsg' hst
  case executedAt =>
    intro i tx' hti
    dsimp only at hti ⊢
    rcases setTx_cases hti with ⟨rfl, rfl⟩ | ⟨hij, hti'⟩
    · simp
    · exact h.executedAt i tx' hti'

/-- `initialize` preserves the invariant on every path. -/
theorem inv_init (s : TreasuryState) (a : Address) (sg : List Address)
    (r : Nat) (h : TreasuryInv s) : TreasuryInv (init_treasury s a sg r).1 := by
  unfold init_treasury
  by_cases hA : s.admin.isSome
  · rw [if_pos hA]; exact h
  · rw [if_neg hA]
    by_cases hr : r = 0 ∨ sg.length < r
    · rw [if_pos hr]; exact h
    · rw [if_neg hr]
      exact inv_init_set s a sg r h (Option.not_isSome_iff_eq_none.mp hA) hr

/-- `propose_transaction` preserves the invariant on every path. -/
theorem inv_propose (s : TreasuryState) (now : Nat)
    (proposer recipient token : Address) (amount : Int) (d : String)
    (e : Nat) (h : TreasuryInv s) :
    TreasuryInv
      (propose_transaction s now proposer recipient token amount d e).1 := by
  unfold propose_transaction
  cases hsg : s.signers with
  | none => exact h
  | some sg =>
    dsimp only
    by_cases hmem : proposer ∉ sg
    · rw [if_pos hmem]; exact h
    · rw [if_neg hmem]
      by_cases hamt : amount ≤ 0
      · rw [if_pos hamt]; exact h
      · rw [if_neg hamt]
        cases hreq : s.requiredSigners with
        | none => exact h
        | some required =>
          dsimp only
          rw [← hsg, ← hreq]
          exact inv_propose_set s now proposer recipient token amount d e sg
            required h hsg hreq

/-- `approve_transaction` preserves the invariant on every path,
including the lazy-expiry flip. -/
theorem inv_approve (s : TreasuryState) (now : Nat) (signer : Address)
    (tx_id : Nat) (h : TreasuryInv s) :
    TreasuryInv (approve_transaction s now signer tx_id).1 := by
  unfold approve_transaction
  cases hsg : s.signers with
  | none => exact h
  | some sg =>
    dsimp only
    by_cases hmem : signer ∉ sg
    · rw [if_pos hmem]; exact h
    · rw [if_neg hmem]
      by_cases hv : (tx_id, signer) ∈ s.votes
      · rw [if_pos hv]; exact h
      · rw [if_neg hv]
        cases htx : s.txs tx_id with
        | none => exact h
        | some tx =>
          dsimp only
          by_cases hst : tx.status ≠ TxStatus.Pending
          · rw [if_pos hst]; exact h
          · rw [if_neg hst]
            have hp : tx.status = .Pending := not_not.mp hst
            by_cases hex : tx.expires_at < now
            · rw [if_pos hex]
              rw [← hsg]
              exact inv_expire_set s tx_id tx h htx hp
            · rw [if_neg hex]
              dsimp only
              by_cases hth : tx.required_approvals ≤ tx.approvals + 1
              · rw [if_pos hth]
                rw [← hsg]
                refine inv_approve_set s signer tx_id tx sg .Approved h hsg htx
                  hp hv ?_ ?_ ?_ ?_
                · exact ⟨fun _ => hth, fun _ => Or.inl rfl⟩
                · intro h0; exact TxStatus.noConfusion h0
                · intro h0; exact TxStatus.noConfusion h0
                · intro h0; exact TxStatus.noConfusion h0
              · rw [if_neg hth]
                rw [← hsg]
                refine inv_approve_set s signer tx_id tx sg tx.status h hsg htx
                  hp hv ?_ ?_ ?_ ?_
                · constructor
                  · rintro (h0 | h0) <;>
                      (rw [hp] at h0; exact TxStatus.noConfusion h0)
                  · intro h0; exact absurd h0 hth
                · intro _; exact Nat.not_le.mp hth
                · rw [hp]; intro h0; exact TxStatus.noConfusion h0
                · rw [hp]; intro h0; exact TxStatus.noConfusion h0

/-- `reject_transaction` preserves the invariant on every path. -/
theorem inv_reject (s : TreasuryState) (signer : Address) (tx_id : Nat)
    (h : TreasuryInv s) : TreasuryInv (reject_transaction s signer tx_id).1 := by
  unfold reject_transaction
  cases hsg : s.signers with
  | none => exact h
  | some sg =>
    dsimp only
    by_cases hmem : signer ∉ sg
    · rw [if_pos hmem]; exact h
    · rw [if_neg hmem]
      cases htx : s.txs tx_id with
      | none => exact h
      | some tx =>
        dsimp only
        by_cases hst : tx.status ≠ TxStatus.Pending
        · rw [if_pos hst]; exact h
        · rw [if_neg hst]
          have hp : tx.status = .Pending := not_not.mp hst
          cases hreq : s.requiredSigners with
          | none => exact h
          | some required =>
            have hrr : required = tx.required_approvals := by
              have h0 := h.txCfg tx_id tx htx
              rw [hreq] at h0
              injection h0
            have hq := h.cfg sg required hsg hreq
            have hpr := h.pendingRej tx_id tx sg htx hsg hp
            dsimp only
            rw [← hsg, ← hreq]
            refine inv_reject_set s tx_id tx sg _ h hsg htx hp ?_ ?_ ?_ ?_
            · split
              · intro h0; exact TxStatus.noConfusion h0
              · rw [hp]; intro h0; exact TxStatus.noConfusion h0
            · split
              · intro h0; exact TxStatus.noConfusion h0
              · rw [hp]; intro h0; exact TxStatus.noConfusion h0
            · split
              · intro h0; exact absurd h0 (fun h1 => TxStatus.noConfusion h1)
              · intro _
                rename_i hflip
                omega
            · split
              · intro _
                rename_i hflip
                omega
              · rw [hp]; intro h0; exact TxStatus.noConfusion h0

/-- `execute_transaction` preserves the invariant on every path. -/
theorem inv_execute (s : TreasuryState) (now : Nat) (transferOk : Bool)
    (caller : Address) (tx_id : Nat) (h : TreasuryInv s) :
    TreasuryInv (execute_transaction s now transferOk caller tx_id).1 := by
  unfold execute_transaction
  cases hsg : s.signers with
  | none => exact h
  | some sg =>
    dsimp only
    by_cases hmem : caller ∉ sg
    · rw [if_pos hmem]; exact h
    · rw [if_neg hmem]
      cases htx : s.txs tx_id with
      | none => exact h
      | some tx =>
        dsimp only
        by_cases hst : tx.status ≠ TxStatus.Approved
        · rw [if_pos hst]; exact h
        · rw [if_neg hst]
          have hap : tx.status = .Approved := not_not.mp hst
          by_cases htr : ¬ transferOk
          · rw [if_pos htr]; exact h
          · rw [if_neg htr]
            rw [← hsg]
            exact inv_execute_set s now tx_id tx h htx hap

/-- Every mutating call preserves the invariant. -/
theorem inv_step {s s' : TreasuryState} (h : TreasuryInv s)
    (hstep : TreasuryStep s s') : TreasuryInv s' := by
  cases hstep with
  | init a sg r => exact inv_init s a sg r h
  | propose now p rcp tok amt d e => exact inv_propose s now p rcp tok amt d e h
  | approve now signer i => exact inv_approve s now signer i h
  | reject signer i => exact inv_reject s signer i h
  | execute now ok c i => exact inv_execute s now ok c i h

/-- The invariant holds in every reachable state. -/
theorem inv_reachable {s : TreasuryState} (h : TreasuryReachable s) :
    TreasuryInv s := by
  induction h with
  | empty => exact inv_empty
  | step _ hstep ih => exact inv_step ih hstep

/-! ### Frame lemmas: which slots an operation can touch -/

theorem init_txs_frame (s : TreasuryState) (a : Address) (sg : List Address)
    (r : Nat) (i : Nat) : (init_treasury s a sg r).1.txs i = s.txs i := by
  unfold init_treasury
  split
  · rfl
  · split
    · rfl
    · rfl

theorem propose_txs_frame (s : TreasuryState) (now : Nat)
    (proposer recipient token : Address) (amount : Int) (d : String) (e : Nat)
    (i : Nat) (hle : i ≤ s.txCounter) :
    (propose_transaction s now proposer recipient token amount d e).1.txs i =
      s.txs i := by
  unfold propose_transaction
  cases s.signers with
  | none => rfl
  | some sg =>
    dsimp only
    split
    · rfl
    · split
      · rfl
      · cases s.requiredSigners with
        | none => rfl
        | some required =>
          dsimp only
          exact setTx_other _ _ _ _ (by omega)

theorem approve_txs_frame (s : TreasuryState) (now : Nat) (signer : Address)
    (j i : Nat) (hij : i ≠ j) :
    (approve_transaction s now signer j).1.txs i = s.txs i := by
  unfold approve_transaction
  cases s.signers with
  | none => rfl
  | some sg =>
    dsimp only
    split
    · rfl
    · split
      · rfl
      · cases s.txs j with
        | none => rfl
        | some tx =>
          dsimp only
          split
          · rfl
          · split
            · exact setTx_other _ _ _ _ hij
            · exact setTx_other _ _ _ _ hij

theorem reject_txs_frame (s : TreasuryState) (signer : Address) (j i : Nat)
    (hij : i ≠ j) :
    (reject_transaction s signer j).1.txs i = s.txs i := by
  unfold reject_transaction
  cases s.signers with
  | none => rfl
  | some sg =>
    dsimp only
    split
    · rfl
    · cases s.txs j with
      | none => rfl
      | some tx =>
        dsimp only
        split
        · rfl
        · cases s.requiredSigners with
          | none => rfl
          | some required =>
            exact setTx_other _ _ _ _ hij

theorem execute_txs_frame (s : TreasuryState) (now : Nat) (transferOk : Bool)
    (caller : Address) (j i : Nat) (hij : i ≠ j) :
    (execute_transaction s now transferOk caller j).1.txs i = s.txs i := by
  unfold execute_transaction
  cases s.signers with
  | none => rfl
  | some sg =>
    dsimp only
    split
    · rfl
    · cases s.txs j with
      | none => rfl
      | some tx =>
        dsimp only
        split
        · rfl
        · split
          · rfl
          · exact setTx_other _ _ _ _ hij

theorem statusAdv_refl (st : TxStatus) : statusAdv st st = true := by
  cases st <;> rfl

/-- How one step can change a stored transaction record: not at all, the
lazy-expiry flip, a counted approval, a counted rejection, or execution. -/
theorem step_txs (s s' : TreasuryState) (hstep : TreasuryStep s s') (i : Nat)
    (tx : TreasuryTx) (hle : i ≤ s.txCounter) (htx : s.txs i = some tx) :
    s'.txs i = some tx ∨
    (tx.status = .Pending ∧
      s'.txs i = some { tx with status := TxStatus.Expired }) ∨
    (tx.status = .Pending ∧ ∃ st,
      (st = TxStatus.Approved ∨ st = TxStatus.Pending) ∧
      s'.txs i = some { tx with approvals := tx.approvals + 1, status := st }) ∨
    (tx.status = .Pending ∧ ∃ st,
      (st = TxStatus.Rejected ∨ st = TxStatus.Pending) ∧
      s'.txs i = some { tx with rejections := tx.rejections + 1, status := st }) ∨
    (tx.status = .Approved ∧ ∃ n,
      s'.txs i =
        some { tx with status := TxStatus.Executed, executed_at := some n }) := by
  cases hstep with
  | init a sg r =>
    exact Or.inl ((init_txs_frame s a sg r i).trans htx)
  | propose now p rcp tok amt d e =>
    exact Or.inl
      ((propose_txs_frame s now p rcp tok amt d e i hle).trans htx)
  | approve now signer j =>
    by_cases hji : i = j
    · subst hji
      unfold approve_transaction
      cases hsg : s.signers with
      | none => exact Or.inl htx
      | some sg =>
        dsimp only
        split
        · exact Or.inl htx
        · split
          · exact Or.inl htx
          · rw [htx]
            dsimp only
            split
            · exact Or.inl htx
            · rename_i hnp
              have hp : tx.status = .Pending := not_not.mp hnp
              split
              · refine Or.inr (Or.inl ⟨hp, ?_⟩)
                exact setTx_self _ _ _
              · dsimp only
                by_cases hth : tx.required_approvals ≤ tx.approvals + 1
                · rw [if_pos hth]
                  exact Or.inr (Or.inr (Or.inl
                    ⟨hp, .Approved, Or.inl rfl, setTx_self _ _ _⟩))
                · rw [if_neg hth]
                  exact Or.inr (Or.inr (Or.inl
                    ⟨hp, tx.status, Or.inr hp, setTx_self _ _ _⟩))
    · exact Or.inl ((approve_txs_frame s now signer j i hji).trans htx)
  | reject signer j =>
    by_cases hji : i = j
    · subst hji
      unfold reject_transaction
      cases hsg : s.signers with
      | none => exact Or.inl htx
      | some sg =>
        dsimp only
        split
        · exact Or.inl htx
        · rw [htx]
          dsimp only
          split
          · exact Or.inl htx
          · rename_i hnp
            have hp : tx.status = .Pending := not_not.mp hnp
            cases hreq : s.requiredSigners with
            | none => exact Or.inl htx
            | some required =>
              dsimp only
              refine Or.inr (Or.inr (Or.inr (Or.inl
                ⟨hp, if sg.length - (tx.rejections + 1) < required then
                    TxStatus.Rejected
                  else tx.status, ?_, ?_⟩)))
              · split
                · exact Or.inl rfl
                · exact Or.inr hp
              · exact setTx_self _ _ _
    · exact Or.inl ((reject_txs_frame s signer j i hji).trans htx)
  | execute now ok c j =>
    by_cases hji : i = j
    · subst hji
      unfold execute_transaction
      cases hsg : s.signers with
      | none => exact Or.inl htx
      | some sg =>
        dsimp only
        split
        · exact Or.inl htx
        · rw [htx]
          dsimp only
          split
          · exact Or.inl htx
          · rename_i hna
            have hap : tx.status = .Approved := not_not.mp hna
            split
            · exact Or.inl htx
            · exact Or.inr (Or.inr (Or.inr (Or.inr
                ⟨hap, now, setTx_self _ _ _⟩)))
    · exact Or.inl ((execute_txs_frame s now ok c j i hji).trans htx)

theorem reach_sA2 : TreasuryReachable sA2 :=
  TreasuryReachable.step
    (TreasuryReachable.step TreasuryReachable.empty
      (TreasuryStep.init emptyState 9 [0, 1, 2] 2))
    (TreasuryStep.propose sA1 100 0 7 8 50 "grant" 1000)

theorem reach_sA4 : TreasuryReachable sA4 :=
  TreasuryReachable.step
    (TreasuryReachable.step reach_sA2 (TreasuryStep.approve sA2 110 0 1))
    (TreasuryStep.approve sA3 120 1 1)

theorem reach_sB2 : TreasuryReachable sB2 :=
  TreasuryReachable.step
    (TreasuryReachable.step TreasuryReachable.empty
      (TreasuryStep.init emptyState 9 [0, 1, 2, 3, 4] 3))
    (TreasuryStep.propose sB1 100 0 7 8 50 "pay" 1000)

theorem reach_sB3 : TreasuryReachable sB3 :=
  TreasuryReachable.step reach_sB2 (TreasuryStep.reject sB2 1 1)


/-! ### Claims -/

/-- C1: for every reachable state, a stored transaction with quorum
snapshot `q = required_approvals` (with `1 ≤ q ≤ |roster|`) is
`Approved` (or later `Executed`) exactly when the number of
distinct-signer approvals reached `q`; its approvals counter counts the
distinct vote markers; and once it is `Rejected` the remaining
non-rejecting signers are too few for the quorum ever to be reached. -/
theorem approved_iff_quorum_reached (s : TreasuryState) (i : Nat)
    (tx : TreasuryTx) (sg : List Address) (hreach : TreasuryReachable s)
    (htx : s.txs i = some tx) (hsg : s.signers = some sg) :
    (1 ≤ tx.required_approvals ∧ tx.required_approvals ≤ sg.length) ∧
    ((tx.status = TxStatus.Approved ∨ tx.status = TxStatus.Executed) ↔
      tx.required_approvals ≤ tx.approvals) ∧
    (tx.approvals = (s.votes.filter (fun p => p.1 == i)).length ∧
      s.votes.Nodup) ∧
    (tx.status = TxStatus.Rejected →
      sg.length - tx.rejections < tx.required_approvals) := by
  have hinv := inv_reachable hreach
  have hcfg := hinv.txCfg i tx htx
  have hq := hinv.cfg sg tx.required_approvals hsg hcfg
  refine ⟨hq, hinv.statusIff i tx htx,
    ⟨hinv.votesCount i tx htx, hinv.votesNodup⟩, ?_⟩
  intro hrej
  have hunr := hinv.rejectedUnr i tx sg htx hsg hrej
  omega

/-- Witness for C1 at the concrete approved transaction of scenario A. -/
theorem approved_iff_quorum_reached_witness :
    sA4.txs 1 = some txA4 ∧ sA4.signers = some [0, 1, 2] ∧
    ((1 ≤ txA4.required_approvals ∧ txA4.required_approvals ≤ 3) ∧
      ((txA4.status = TxStatus.Approved ∨ txA4.status = TxStatus.Executed) ↔
        txA4.required_approvals ≤ txA4.approvals) ∧
      (txA4.approvals = (sA4.votes.filter (fun p => p.1 == 1)).length ∧
        sA4.votes.Nodup) ∧
      (txA4.status = TxStatus.Rejected →
        (3 : Nat) - txA4.rejections < txA4.required_approvals)) :=
  ⟨by decide, by decide,
    approved_iff_quorum_reached sA4 1 txA4 [0, 1, 2] reach_sA4
      (by decide) (by decide)⟩

/-- C4: in every reachable state, every stored transaction satisfies
`approvals + rejections ≤ |roster|`. -/
theorem approvals_rejections_le_roster (s : TreasuryState) (i : Nat)
    (tx : TreasuryTx) (sg : List Address) (hreach : TreasuryReachable s)
    (htx : s.txs i = some tx) (hsg : s.signers = some sg) :
    tx.approvals + tx.rejections ≤ sg.length :=
  (inv_reachable hreach).totalLe i tx sg htx hsg

/-- Witness for C4 at scenario B after one rejection. -/
theorem approvals_rejections_le_roster_witness :
    sB3.txs 1 = some { txB2 with rejections := 1 } ∧
    sB3.signers = some [0, 1, 2, 3, 4] ∧
    ({ txB2 with rejections := 1 }.approvals +
      { txB2 with rejections := 1 }.rejections ≤ 5) :=
  ⟨by decide, by decide,
    approvals_rejections_le_roster sB3 1 { txB2 with rejections := 1 }
      [0, 1, 2, 3, 4] reach_sB3 (by decide) (by decide)⟩

/-- C9: in every reachable state, every stored transaction satisfies
`approvals ≤ required_approvals`, strictly so while it is `Pending`. -/
theorem approvals_le_required (s : TreasuryState) (i : Nat)
    (tx : TreasuryTx) (hreach : TreasuryReachable s)
    (htx : s.txs i = some tx) :
    tx.approvals ≤ tx.required_approvals ∧
    (tx.status = TxStatus.Pending →
      tx.approvals < tx.required_approvals) :=
  ⟨(inv_reachable hreach).apLe i tx htx,
    (inv_reachable hreach).pendingLt i tx htx⟩

/-- Witness for C9 at the concrete approved transaction of scenario A. -/
theorem approvals_le_required_witness :
    sA4.txs 1 = some txA4 ∧
    (txA4.approvals ≤ txA4.required_approvals ∧
      (txA4.status = TxStatus.Pending →
        txA4.approvals < txA4.required_approvals)) :=
  ⟨by decide, approvals_le_required sA4 1 txA4 reach_sA4 (by decide)⟩

/-- C2: an `approve_transaction` touching a `Pending` transaction whose
`expires_at` lies strictly in the past fails with `Expired`, yet
persists the flip to `Expired` and records no vote; a subsequent
`approve_transaction` on the same transaction (by any roster signer who
has not voted) fails with `InvalidStatus`, leaving the state unchanged. -/
theorem approve_lazy_expiry (s : TreasuryState) (now now2 : Nat)
    (signer signer2 : Address) (i : Nat) (tx : TreasuryTx)
    (sg : List Address) (hsg : s.signers = some sg) (hmem : signer ∈ sg)
    (hnv : (i, signer) ∉ s.votes) (htx : s.txs i = some tx)
    (hp : tx.status = TxStatus.Pending) (hex : tx.expires_at < now)
    (hmem2 : signer2 ∈ sg) (hnv2 : (i, signer2) ∉ s.votes) :
    (approve_transaction s now signer i).2 = some Err.Expired ∧
    (approve_transaction s now signer i).1.txs i =
      some { tx with status := TxStatus.Expired } ∧
    (approve_transaction s now signer i).1.votes = s.votes ∧
    approve_transaction (approve_transaction s now signer i).1 now2 signer2 i =
      ((approve_transaction s now signer i).1, some Err.InvalidStatus) := by
  have hr : approve_transaction s now signer i =
      ({ s with txs := setTx s.txs i { tx with status := TxStatus.Expired } },
        some Err.Expired) := by
    unfold approve_transaction
    rw [hsg]
    dsimp only
    rw [if_neg (not_not_intro hmem), if_neg hnv, htx]
    dsimp only
    rw [if_neg (not_not_intro hp), if_pos hex]
  refine ⟨by rw [hr], ?_, by rw [hr], ?_⟩
  · rw [hr]
    exact setTx_self _ _ _
  · rw [hr]
    unfold approve_transaction
    dsimp only
    rw [hsg]
    dsimp only
    rw [if_neg (not_not_intro hmem2), if_neg hnv2, setTx_self]
    dsimp only
    rw [if_pos (show TxStatus.Expired ≠ TxStatus.Pending by decide)]

/-- Witness for C2: at `sA2`, signer 1 touches transaction 1 at time
2000 (past its expiry 1100); signer 2 then retries at time 2010. -/
theorem approve_lazy_expiry_witness :
    sA2.txs 1 = some txA2 ∧ txA2.status = TxStatus.Pending ∧
    txA2.expires_at < 2000 ∧
    ((approve_transaction sA2 2000 1 1).2 = some Err.Expired ∧
      (approve_transaction sA2 2000 1 1).1.txs 1 =
        some { txA2 with status := TxStatus.Expired } ∧
      (approve_transaction sA2 2000 1 1).1.votes = sA2.votes ∧
      approve_transaction (approve_transaction sA2 2000 1 1).1 2010 2 1 =
        ((approve_transaction sA2 2000 1 1).1, some Err.InvalidStatus)) :=
  ⟨by decide, by decide, by decide,
    approve_lazy_expiry sA2 2000 2010 1 2 1 txA2 [0, 1, 2] (by decide)
      (by decide) (by decide) (by decide) (by decide) (by decide)
      (by decide) (by decide)⟩

/-- Counterexample to C3: in scenario B, signer 1 rejects transaction 1
(a counted vote), and then rejects it again — the second call also
succeeds and increments the rejection counter, because
`reject_transaction` neither checks nor writes a vote marker. -/
theorem double_reject_succeeds :
    (reject_transaction sB2 1 1).2 = none ∧
    ((reject_transaction sB2 1 1).1.txs 1).map (fun tx => tx.rejections) =
      some 1 ∧
    (reject_transaction sB3 1 1).2 = none ∧
    ((reject_transaction sB3 1 1).1.txs 1).map (fun tx => tx.rejections) =
      some 2 := by
  refine ⟨?_, ?_, ?_, ?_⟩ <;> decide

/-- C3 as amended: only approvals are vote-checked.  A signer in the
roster whose vote marker for a transaction exists gets `AlreadyVoted`
from `approve_transaction` with no state change, and every successful
`approve_transaction` records the marker; `reject_transaction` performs
no such check, so repeated rejections by one signer are counted. -/
theorem approve_vote_uniqueness (s : TreasuryState) (now : Nat)
    (signer : Address) (i : Nat) (sg : List Address)
    (hsg : s.signers = some sg) (hmem : signer ∈ sg) :
    ((i, signer) ∈ s.votes →
      approve_transaction s now signer i = (s, some Err.AlreadyVoted)) ∧
    ((approve_transaction s now signer i).2 = none →
      (i, signer) ∈ (approve_transaction s now signer i).1.votes) := by
  constructor
  · intro hv
    unfold approve_transaction
    rw [hsg]
    dsimp only
    rw [if_neg (not_not_intro hmem), if_pos hv]
  · intro hok
    by_cases hv : (i, signer) ∈ s.votes
    · have hr : approve_transaction s now signer i =
          (s, some Err.AlreadyVoted) := by
        unfold approve_transaction
        rw [hsg]
        dsimp only
        rw [if_neg (not_not_intro hmem), if_pos hv]
      rw [hr] at hok
      simp at hok
    · cases htx : s.txs i with
      | none =>
        have hr : approve_transaction s now signer i =
            (s, some Err.NotFound) := by
          unfold approve_transaction
          rw [hsg]
          dsimp only
          rw [if_neg (not_not_intro hmem), if_neg hv, htx]
        rw [hr] at hok
        simp at hok
      | some tx =>
        by_cases hst : tx.status ≠ TxStatus.Pending
        · have hr : approve_transaction s now signer i =
              (s, some Err.InvalidStatus) := by
            unfold approve_transaction
            rw [hsg]
            dsimp only
            rw [if_neg (not_not_intro hmem), if_neg hv, htx]
            dsimp only
            rw [if_pos hst]
          rw [hr] at hok
          simp at hok
        · by_cases hex : tx.expires_at < now
          · have hr : approve_transaction s now signer i =
                ({ s with
                    txs := setTx s.txs i { tx with status := TxStatus.Expired } },
                  some Err.Expired) := by
              unfold approve_transaction
              rw [hsg]
              dsimp only
              rw [if_neg (not_not_intro hmem), if_neg hv, htx]
              dsimp only
              rw [if_neg hst, if_pos hex]
            rw [hr] at hok
            simp at hok
          · have hr : (approve_transaction s now signer i).1.votes =
                (i, signer) :: s.votes := by
              unfold approve_transaction
              rw [hsg]
              dsimp only
              rw [if_neg (not_not_intro hmem), if_neg hv, htx]
              dsimp only
              rw [if_neg hst, if_neg hex]
            rw [hr]
            exact List.mem_cons_self _ _

/-- Witness for the amended C3 at `sA3`, where signer 0 has already
approved transaction 1. -/
theorem approve_vote_uniqueness_witness :
    sA3.signers = some [0, 1, 2] ∧ (0 : Address) ∈ [0, 1, 2] ∧
    (((1, 0) ∈ sA3.votes →
        approve_transaction sA3 130 0 1 = (sA3, some Err.AlreadyVoted)) ∧
      ((approve_transaction sA3 130 0 1).2 = none →
        (1, 0) ∈ (approve_transaction sA3 130 0 1).1.votes)) :=
  ⟨by decide, by decide,
    approve_vote_uniqueness sA3 130 0 1 [0, 1, 2] (by decide) (by decide)⟩

/-- C5: `reject_transaction` on a `Pending` transaction increments the
rejection counter and flips the status to `Rejected` exactly when
`|roster| - rejections` drops below the transaction's own
`required_approvals` snapshot (which, in every reachable state, is what
the live quorum key also holds, so the re-read cannot diverge). -/
theorem reject_early_termination (s : TreasuryState) (signer : Address)
    (i : Nat) (tx : TreasuryTx) (sg : List Address)
    (hreach : TreasuryReachable s) (hsg : s.signers = some sg)
    (hmem : signer ∈ sg) (htx : s.txs i = some tx)
    (hp : tx.status = TxStatus.Pending) :
    reject_transaction s signer i =
      ({ s with
          txs := setTx s.txs i
            { tx with
                rejections := tx.rejections + 1
                status :=
                  if sg.length - (tx.rejections + 1) < tx.required_approvals
                  then TxStatus.Rejected
                  else TxStatus.Pending } }, none) := by
  have hcfg := (inv_reachable hreach).txCfg i tx htx
  unfold reject_transaction
  rw [hsg]
  dsimp only
  rw [if_neg (not_not_intro hmem), htx]
  dsimp only
  rw [if_neg (not_not_intro hp), hcfg]
  dsimp only
  rw [hp]

/-- Witness for C5: signer 1 rejects the pending transaction of
scenario B (quorum 3, roster size 5, so one rejection does not yet make
the quorum unreachable). -/
theorem reject_early_termination_witness :
    sB2.txs 1 = some txB2 ∧ txB2.status = TxStatus.Pending ∧
    reject_transaction sB2 1 1 =
      ({ sB2 with
          txs := setTx sB2.txs 1
            { txB2 with
                rejections := txB2.rejections + 1
                status :=
                  if 5 - (txB2.rejections + 1) < txB2.required_approvals
                  then TxStatus.Rejected
                  else TxStatus.Pending } }, none) :=
  ⟨by decide, by decide,
    reject_early_termination sB2 1 1 txB2 [0, 1, 2, 3, 4] reach_sB2
      (by decide) (by decide) (by decide) (by decide)⟩

/-- C6: `execute_transaction` fails with `InvalidStatus` and invokes no
transfer whenever the transaction is not `Approved`; and it performs no
expiry check, so an `Approved` transaction executes successfully even
when `now` is past its `expires_at`. -/
theorem execute_only_from_approved (s : TreasuryState) (now : Nat)
    (transferOk : Bool) (caller : Address) (i : Nat) (tx : TreasuryTx)
    (sg : List Address) (hsg : s.signers = some sg) (hmem : caller ∈ sg)
    (htx : s.txs i = some tx) :
    (tx.status ≠ TxStatus.Approved →
      execute_transaction s now transferOk caller i =
        (s, some Err.InvalidStatus, false)) ∧
    (tx.status = TxStatus.Approved → transferOk = true →
      tx.expires_at < now →
      (execute_transaction s now transferOk caller i).2.1 = none ∧
      (execute_transaction s now transferOk caller i).1.txs i =
        some { tx with status := TxStatus.Executed, executed_at := some now }) := by
  constructor
  · intro hna
    unfold execute_transaction
    rw [hsg]
    dsimp only
    rw [if_neg (not_not_intro hmem), htx]
    dsimp only
    rw [if_pos hna]
  · intro hap htr _hex
    have hr : execute_transaction s now transferOk caller i =
        ({ s with
            txs := setTx s.txs i
              { tx with status := TxStatus.Executed, executed_at := some now } },
          none, true) := by
      unfold execute_transaction
      rw [hsg]
      dsimp only
      rw [if_neg (not_not_intro hmem), htx]
      dsimp only
      rw [if_neg (not_not_intro hap), if_neg (not_not_intro htr)]
    exact ⟨by rw [hr], by rw [hr]; exact setTx_self _ _ _⟩

/-- Witness for C6: executing the pending transaction of scenario A
fails with `InvalidStatus` and no transfer, while the approved one
executes at time 2000, well past its expiry 1100. -/
theorem execute_only_from_approved_witness :
    sA2.txs 1 = some txA2 ∧ txA2.status ≠ TxStatus.Approved ∧
    execute_transaction sA2 150 true 2 1 = (sA2, some Err.InvalidStatus, false) ∧
    sA4.txs 1 = some txA4 ∧ txA4.status = TxStatus.Approved ∧
    txA4.expires_at < 2000 ∧
    (execute_transaction sA4 2000 true 2 1).2.1 = none ∧
    (execute_transaction sA4 2000 true 2 1).1.txs 1 =
      some { txA4 with status := TxStatus.Executed, executed_at := some 2000 } :=
  ⟨by decide, by decide,
    (execute_only_from_approved sA2 150 true 2 1 txA2 [0, 1, 2] (by decide)
      (by decide) (by decide)).1 (by decide),
    by decide, by decide, by decide,
    ((execute_only_from_approved sA4 2000 true 2 1 txA4 [0, 1, 2] (by decide)
      (by decide) (by decide)).2 (by decide) rfl (by decide)).1,
    ((execute_only_from_approved sA4 2000 true 2 1 txA4 [0, 1, 2] (by decide)
      (by decide) (by decide)).2 (by decide) rfl (by decide)).2⟩

/-- C7: when the transfer capability fails, `execute_transaction`
returns the state unchanged with `TransferFailed` (the transfer was
invoked, nothing was persisted); the transaction is still `Approved`
with `executed_at` unset, and a later `execute_transaction` with a
succeeding transfer completes the execution. -/
theorem execute_transfer_failure_aborts (s : TreasuryState) (now now2 : Nat)
    (caller caller2 : Address) (i : Nat) (tx : TreasuryTx)
    (sg : List Address) (hreach : TreasuryReachable s)
    (hsg : s.signers = some sg) (hmem : caller ∈ sg)
    (htx : s.txs i = some tx) (hap : tx.status = TxStatus.Approved)
    (hmem2 : caller2 ∈ sg) :
    execute_transaction s now false caller i =
      (s, some Err.TransferFailed, true) ∧
    tx.executed_at = none ∧
    (execute_transaction s now2 true caller2 i).2.1 = none ∧
    (execute_transaction s now2 true caller2 i).1.txs i =
      some { tx with status := TxStatus.Executed, executed_at := some now2 } := by
  refine ⟨?_, ?_, ?_, ?_⟩
  · unfold execute_transaction
    rw [hsg]
    dsimp only
    rw [if_neg (not_not_intro hmem), htx]
    dsimp only
    rw [if_neg (not_not_intro hap), if_pos (by decide : ¬ false = true)]
  · have he := (inv_reachable hreach).executedAt i tx htx
    rw [hap] at he
    have hn : ¬ tx.executed_at.isSome = true :=
      fun h0 => TxStatus.noConfusion (he.mp h0)
    exact Option.not_isSome_iff_eq_none.mp hn
  · have hr : execute_transaction s now2 true caller2 i =
        ({ s with
            txs := setTx s.txs i
              { tx with status := TxStatus.Executed, executed_at := some now2 } },
          none, true) := by
      unfold execute_transaction
      rw [hsg]
      dsimp only
      rw [if_neg (not_not_intro hmem2), htx]
      dsimp only
      rw [if_neg (not_not_intro hap), if_neg (by decide : ¬ ¬ true = true)]
    rw [hr]
  · have hr : execute_transaction s now2 true caller2 i =
        ({ s with
            txs := setTx s.txs i
              { tx with status := TxStatus.Executed, executed_at := some now2 } },
          none, true) := by
      unfold execute_transaction
      rw [hsg]
      dsimp only
      rw [if_neg (not_not_intro hmem2), htx]
      dsimp only
      rw [if_neg (not_not_intro hap), if_neg (by decide : ¬ ¬ true = true)]
    rw [hr]
    exact setTx_self _ _ _

/-- Witness for C7: the transfer for the approved transaction of
scenario A fails at time 130; the retry at time 140 succeeds. -/
theorem execute_transfer_failure_aborts_witness :
    sA4.txs 1 = some txA4 ∧ txA4.status = TxStatus.Approved ∧
    (execute_transaction sA4 130 false 2 1 =
        (sA4, some Err.TransferFailed, true) ∧
      txA4.executed_at = none ∧
      (execute_transaction sA4 140 true 2 1).2.1 = none ∧
      (execute_transaction sA4 140 true 2 1).1.txs 1 =
        some { txA4 with status := TxStatus.Executed, executed_at := some 140 }) :=
  ⟨by decide, by decide,
    execute_transfer_failure_aborts sA4 130 140 2 2 1 txA4 [0, 1, 2] reach_sA4
      (by decide) (by decide) (by decide) (by decide) (by decide)⟩

/-- C8: along any single call from a reachable state, a stored
transaction's record either stays as it is or advances along
`Pending → {Approved, Rejected, Expired}`, `Approved → Executed`; once
the status is terminal (`Executed`, `Rejected` or `Expired`), the whole
record is immutable, and no status ever moves backward. -/
theorem status_monotonic (s s' : TreasuryState) (i : Nat) (tx : TreasuryTx)
    (hreach : TreasuryReachable s) (hstep : TreasuryStep s s')
    (htx : s.txs i = some tx) :
    ∃ tx', s'.txs i = some tx' ∧ statusAdv tx.status tx'.status = true ∧
      (isTerminal tx.status = true → tx' = tx) := by
  have hle := (inv_reachable hreach).idLe i tx htx
  rcases step_txs s s' hstep i tx hle htx with
    h0 | ⟨hp, h0⟩ | ⟨hp, st, hst, h0⟩ | ⟨hp, st, hst, h0⟩ | ⟨hap, n, h0⟩
  · exact ⟨tx, h0, statusAdv_refl tx.status, fun _ => rfl⟩
  · refine ⟨_, h0, ?_, ?_⟩
    · rw [hp]; rfl
    · intro hterm; rw [hp] at hterm; exact Bool.noConfusion hterm
  · refine ⟨_, h0, ?_, ?_⟩
    · rcases hst with rfl | rfl <;> (rw [hp]; rfl)
    · intro hterm; rw [hp] at hterm; exact Bool.noConfusion hterm
  · refine ⟨_, h0, ?_, ?_⟩
    · rcases hst with rfl | rfl <;> (rw [hp]; rfl)
    · intro hterm; rw [hp] at hterm; exact Bool.noConfusion hterm
  · refine ⟨_, h0, ?_, ?_⟩
    · rw [hap]; rfl
    · intro hterm; rw [hap] at hterm; exact Bool.noConfusion hterm

/-- Witness for C8: the execute step from `sA4` to `sA5` advances
transaction 1 from `Approved` along the state machine. -/
theorem status_monotonic_witness :
    sA4.txs 1 = some txA4 ∧
    (∃ tx', sA5.txs 1 = some tx' ∧ statusAdv txA4.status tx'.status = true ∧
      (isTerminal txA4.status = true → tx' = txA4)) :=
  ⟨by decide,
    status_monotonic sA4 sA5 1 txA4 reach_sA4
      (TreasuryStep.execute sA4 130 true 2 1) (by decide)⟩

/-- C10: `reject_transaction` writes no vote marker and touches nothing
but the targeted transaction's record (roster, quorum, admin, id
counter, vote markers and all other transactions are unchanged);
consequently a signer who has just rejected a still-`Pending`
transaction can afterwards successfully approve that same
transaction. -/
theorem reject_frame_and_revote (s : TreasuryState) (now : Nat)
    (signer : Address) (i : Nat) (tx : TreasuryTx) (sg : List Address)
    (req : Nat) (hsg : s.signers = some sg) (hmem : signer ∈ sg)
    (htx : s.txs i = some tx) (hp : tx.status = TxStatus.Pending)
    (hreq : s.requiredSigners = some req)
    (hnoflip : ¬ sg.length - (tx.rejections + 1) < req)
    (hnv : (i, signer) ∉ s.votes) (hnex : ¬ tx.expires_at < now) :
    (reject_transaction s signer i).1.votes = s.votes ∧
    (reject_transaction s signer i).1.admin = s.admin ∧
    (reject_transaction s signer i).1.signers = s.signers ∧
    (reject_transaction s signer i).1.requiredSigners = s.requiredSigners ∧
    (reject_transaction s signer i).1.txCounter = s.txCounter ∧
    (∀ j, j ≠ i → (reject_transaction s signer i).1.txs j = s.txs j) ∧
    (reject_transaction s signer i).2 = none ∧
    (approve_transaction (reject_transaction s signer i).1 now signer i).2 =
      none := by
  have hr : reject_transaction s signer i =
      ({ s with
          txs := setTx s.txs i { tx with rejections := tx.rejections + 1 } },
        none) := by
    unfold reject_transaction
    rw [hsg]
    dsimp only
    rw [if_neg (not_not_intro hmem), htx]
    dsimp only
    rw [if_neg (not_not_intro hp), hreq]
    dsimp only
    rw [if_neg hnoflip]
  refine ⟨by rw [hr], by rw [hr], by rw [hr], by rw [hr], by rw [hr],
    ?_, by rw [hr], ?_⟩
  · intro j hj
    rw [hr]
    exact setTx_other _ _ _ _ hj
  · rw [hr]
    unfold approve_transaction
    dsimp only
    rw [hsg]
    dsimp only
    rw [if_neg (not_not_intro hmem), if_neg hnv, setTx_self]
    dsimp only
    rw [if_neg (not_not_intro hp), if_neg hnex]

/-- Witness for C10: in scenario B, signer 1 rejects the pending
transaction 1 and then successfully approves it. -/
theorem reject_frame_and_revote_witness :
    sB2.txs 1 = some txB2 ∧ txB2.status = TxStatus.Pending ∧
    (1, 1) ∉ sB2.votes ∧
    ((reject_transaction sB2 1 1).1.votes = sB2.votes ∧
      (reject_transaction sB2 1 1).1.admin = sB2.admin ∧
      (reject_transaction sB2 1 1).1.signers = sB2.signers ∧
      (reject_transaction sB2 1 1).1.requiredSigners = sB2.requiredSigners ∧
      (reject_transaction sB2 1 1).1.txCounter = sB2.txCounter ∧
      (∀ j, j ≠ 1 → (reject_transaction sB2 1 1).1.txs j = sB2.txs j) ∧
      (reject_transaction sB2 1 1).2 = none ∧
      (approve_transaction (reject_transaction sB2 1 1).1 200 1 1).2 = none) :=
  ⟨by decide, by decide, by decide,
    reject_frame_and_revote sB2 200 1 1 txB2 [0, 1, 2, 3, 4] 3 (by decide)
      (by decide) (by decide) (by decide) (by decide) (by decide) (by decide)
      (by decide)⟩
